import Mathlib

/-!
Verification of the document cache / relevance-scoring service
(`documentService` with Irys-tombstoned deletion, latest revision) of the
smart-bookmark repository, together with the `isValidUrl` check of the
scraper service and the list endpoint of the HTTP layer that combines
`getAllDocuments` with `getStatistics`.

The service is embedded shallowly:

* JS strings are `List Char` (written via `str "..."` for literals);
* the module-level JavaScript `Map` cache (`this.documents`) is an
  association list in insertion order (JS `Map` iteration order), with
  `mapSet` / `mapDelete` / `mapGet` / `mapHas` mirroring `Map.set`,
  `Map.delete`, `Map.get`, `Map.has` (on overwrite, `Map.set` keeps the
  entry at its original position);
* each remote operation (Irys upload, document query, deletion-record
  query) is an independent blocking call whose outcome is passed in as an
  `Except Unit _` parameter: `.ok` models a successful response, `.error`
  models a thrown network error;
* `Date`-derived strings and the random document id are passed in as
  parameters (`now`, `genId`);
* JS `Array.prototype.sort` (stable since ES2019, and stable in Node's
  V8) is modelled by the stable `List.mergeSort`.
-/

namespace DocStore

/-- JS strings, modelled as their character sequences. -/
abbrev Str := List Char

/-- Literal helper: the character sequence of a Lean string literal. -/
def str (s : String) : Str := s.data

/-- JS `String.prototype.toLowerCase` restricted to its ASCII behaviour
(every string the service lowercases is handled character-wise; non-ASCII
case mapping is not exercised by any claim). -/
def jsLowerChar (c : Char) : Char :=
  if 'A' ≤ c && c ≤ 'Z' then Char.ofNat (c.toNat + 32) else c

/-- `s.toLowerCase()`. -/
def lower (s : Str) : Str := s.map jsLowerChar

/-- `hay.includes(needle)`: substring test. -/
def strIncludes : Str → Str → Bool
  | hay, needle =>
    needle.isPrefixOf hay ||
      match hay with
      | [] => false
      | _ :: t => strIncludes t needle

/-- The `userInfo` object attached by the HTTP layer: a stable user id plus
display fields.  Only `id` and `email` are read by the document service. -/
structure UserInfo where
  id : Str
  email : Str
deriving DecidableEq, Repr

/-- The `metadata` object produced by the scraper (`extractMetadata`).
`tags` is optional because the fallback scrape path omits it (the code
guards with `metadata?.tags?.some`). -/
structure Metadata where
  domain : Str
  description : Str
  author : Str
  publishDate : Str
  tags : Option (List Str)
  language : Str
deriving DecidableEq, Repr

/-- Result of `irysService.uploadDocument` / `uploadDeletionRecord`:
`{ id, url, receipt, timestamp }` (the receipt and the tag list echoed
back by the upload are opaque to the document service; the receipt is
modelled as a string and the tag list is omitted since neither is ever
read). -/
structure IrysResult where
  id : Str
  url : Str
  receipt : Str
  timestamp : Str
deriving DecidableEq, Repr

/-- The object returned by `scraperService.scrapeUrl`. It carries no `id`
field, so the spread `{ id: generateDocumentId(), ...scrapedData }` keeps
the generated id. -/
structure ScrapedData where
  url : Str
  title : Str
  content : Str
  summary : Str
  metadata : Option Metadata
  scrapedAt : Str
  contentLength : Nat
  wordCount : Nat
deriving DecidableEq, Repr

/-- A cached document.  Fields written by `addDocument`
(`{ id, ...scrapedData, addedAt, status, userInfo }` followed by the
Irys fields once the upload succeeds).  Documents loaded back from the
remote store have the same shape. -/
structure Document where
  id : Str
  url : Str
  title : Str
  content : Str
  summary : Str
  metadata : Option Metadata
  scrapedAt : Str
  contentLength : Nat
  wordCount : Nat
  addedAt : Str
  status : Str
  userInfo : Option UserInfo
  irysId : Str
  irysUrl : Str
  storedAt : Str
deriving DecidableEq, Repr

/-- A deletion record as built by `uploadDeletionRecord` and as returned by
`irysService.getUserDeletionRecords`.  Only `deletedDocumentId` is read
when reconciling. -/
structure DeletionRecord where
  type : Str
  deletedDocumentId : Str
  deletedAt : Str
  deletedByUserId : Str
  deletedByEmail : Str
  version : Str
deriving DecidableEq, Repr

/-- The in-memory cache `this.documents`: a JS `Map` from string keys to
documents, modelled as an association list in insertion order. -/
abbrev Cache := List (Str × Document)

/-- `Map.has`. -/
def mapHas (m : Cache) (k : Str) : Bool :=
  m.any (fun p => p.1 == k)

/-- `Map.get` (`undefined` becomes `none`). -/
def mapGet (m : Cache) (k : Str) : Option Document :=
  (m.find? (fun p => p.1 == k)).map (·.2)

/-- `Map.set`: overwrites in place when the key is present (JS `Map` keeps
the original insertion position), otherwise appends. -/
def mapSet (m : Cache) (k : Str) (v : Document) : Cache :=
  if mapHas m k then m.map (fun p => if p.1 == k then (k, v) else p)
  else m ++ [(k, v)]

/-- `Map.delete`. -/
def mapDelete (m : Cache) (k : Str) : Cache :=
  m.filter (fun p => p.1 != k)

/-- `Array.from(this.documents.keys())`. -/
def mapKeys (m : Cache) : List Str := m.map (·.1)

/-- `Array.from(this.documents.values())`. -/
def mapValues (m : Cache) : List Document := m.map (·.2)

/-- The owner-scoped cache key: the template string
`${userInfo.id}_${documentId}`. -/
def userKey (u : UserInfo) (documentId : Str) : Str :=
  u.id ++ ['_'] ++ documentId

/-- The filter `key.startsWith(`${userInfo.id}_`)` used to select an
owner's slice of the flat cache. -/
def isUserKey (u : UserInfo) (k : Str) : Bool :=
  (u.id ++ ['_']).isPrefixOf k

/-- Errors thrown by `getDocument` / `removeDocument`:
`'User authentication required for document deletion'` (AuthRequired),
`'Document not found'` (NotFound), and a rethrown Irys upload error. -/
inductive DocError where
  | authRequired
  | notFound
  | uploadFailed
deriving DecidableEq, Repr

/-- Errors wrapped by `addDocument` into
`'Document processing failed: ...'`, by cause. -/
inductive AddError where
  | invalidUrl
  | extractionFailed
  | uploadFailed
deriving DecidableEq, Repr

/-! ### scraperService.isValidUrl -/

/-- Modelled from Node's built-in WHATWG URL parser (`new URL`), which is
not part of this repository: only the aspects `isValidUrl` observes are
modelled.  A parse succeeds when the string starts with an
alphabetic-led scheme followed by a colon; the returned protocol is the
lowercased scheme with its colon. -/
def schemeOf (u : Str) : Option Str :=
  match u with
  | [] => none
  | c :: _ =>
    if c.isAlpha then
      let pre := u.takeWhile (fun ch => ch.isAlphanum || ch == '+' || ch == '-' || ch == '.')
      match u.drop pre.length with
      | ':' :: _ => some (pre.map jsLowerChar)
      | _ => none
    else none

/-- `scraperService.isValidUrl`: `new URL(url)` must succeed and the
protocol must be `http:` or `https:`.  For these special schemes the
WHATWG parser additionally skips any run of slashes after the colon and
requires a nonempty authority (otherwise `new URL` throws, caught as
`false`). -/
def isValidUrl (u : Str) : Bool :=
  match schemeOf u with
  | none => false
  | some s =>
    (s == str "http" || s == str "https") &&
      (match (u.drop (s.length + 1)).dropWhile (fun c => c == '/' || c == '\\') with
       | [] => false
       | c :: _ => !(c == '/' || c == '?' || c == '#'))

/-! ### documentService -/

/-- The projection returned by `addDocument` (note: no `content`, no
`status`). -/
structure AddResponse where
  id : Str
  title : Str
  url : Str
  summary : Str
  irysId : Str
  irysUrl : Str
  addedAt : Str
  contentLength : Nat
  wordCount : Nat
  metadata : Option Metadata
  userInfo : Option UserInfo
deriving DecidableEq, Repr

/-- `addDocument(url, userInfo)`.  The scrape and upload outcomes, the
generated document id and the current time are inputs; on any failure the
cache is returned unchanged together with the single wrapped error. -/
def addDocument (cache : Cache) (url : Str) (userInfo : Option UserInfo)
    (scrapeOutcome : Except Unit ScrapedData)
    (uploadOutcome : Except Unit IrysResult)
    (genId : Str) (now : Str) : Cache × Except AddError AddResponse :=
  if !isValidUrl url then (cache, .error .invalidUrl)
  else
    match scrapeOutcome with
    | .error _ => (cache, .error .extractionFailed)
    | .ok sd =>
      let doc0 : Document :=
        { id := genId, url := sd.url, title := sd.title, content := sd.content
          summary := sd.summary, metadata := sd.metadata, scrapedAt := sd.scrapedAt
          contentLength := sd.contentLength, wordCount := sd.wordCount
          addedAt := now, status := str "processing", userInfo := userInfo
          irysId := [], irysUrl := [], storedAt := [] }
      match uploadOutcome with
      | .error _ => (cache, .error .uploadFailed)
      | .ok ir =>
        let document : Document :=
          { doc0 with irysId := ir.id, irysUrl := ir.url
                      status := str "stored", storedAt := ir.timestamp }
        let cacheKey : Str :=
          match userInfo with
          | some u => userKey u document.id
          | none => document.id
        (mapSet cache cacheKey document,
         .ok { id := document.id, title := document.title, url := document.url
               summary := document.summary, irysId := document.irysId
               irysUrl := document.irysUrl, addedAt := document.addedAt
               contentLength := document.contentLength
               wordCount := document.wordCount, metadata := document.metadata
               userInfo := userInfo })

/-- `loadUserDeletionRecords(userInfo)`: maps the queried records to their
`deletedDocumentId`s; a thrown query error is caught and becomes `[]`
("return empty array so app continues to work"). -/
def loadUserDeletionRecords
    (queryDel : Except Unit (List DeletionRecord)) : List Str :=
  match queryDel with
  | .ok records => records.map (·.deletedDocumentId)
  | .error _ => []

/-- The cache-clearing step of `loadUserDocuments`: delete every key of
this owner's slice. -/
def clearUserSlice (cache : Cache) (u : UserInfo) : Cache :=
  cache.filter (fun p => !isUserKey u p.1)

/-- `loadUserDocuments(userInfo)` (the `reload` operation): query the
owner's documents, query the deletion records, keep the non-tombstoned
documents, replace the owner's cache slice with them.  A thrown document
query is caught: the empty list is returned and the cache is untouched
(the clearing happens after the query). -/
def loadUserDocuments (cache : Cache) (u : UserInfo)
    (queryDocs : Except Unit (List Document))
    (queryDel : Except Unit (List DeletionRecord)) : Cache × List Document :=
  match queryDocs with
  | .error _ => (cache, [])
  | .ok irysDocuments =>
    let deletedDocumentIds := loadUserDeletionRecords queryDel
    let activeDocuments :=
      irysDocuments.filter (fun d => !(deletedDocumentIds.contains d.id))
    let cleared := clearUserSlice cache u
    (activeDocuments.foldl (fun c d => mapSet c (userKey u d.id) d) cleared,
     activeDocuments)

/-- The summary projection built by `getAllDocuments` (note: no
`content`). -/
structure DocumentSummary where
  id : Str
  title : Str
  url : Str
  summary : Str
  irysId : Str
  irysUrl : Str
  addedAt : Str
  contentLength : Nat
  wordCount : Nat
  metadata : Option Metadata
  status : Str
deriving DecidableEq, Repr

/-- The `formattedDocuments` map of `getAllDocuments`. -/
def formatDocument (doc : Document) : DocumentSummary :=
  { id := doc.id, title := doc.title, url := doc.url, summary := doc.summary
    irysId := doc.irysId, irysUrl := doc.irysUrl, addedAt := doc.addedAt
    contentLength := doc.contentLength, wordCount := doc.wordCount
    metadata := doc.metadata, status := doc.status }

/-- `getAllDocuments(userInfo)` (the `list` operation).  With an owner:
serve the owner's cache slice; if it is empty, reload from the remote
store; otherwise re-apply freshly queried deletion tombstones, evicting
the corresponding cache entries when any document was filtered out.
Without an owner: every cached document, unfiltered. -/
def getAllDocuments (cache : Cache) (userInfo : Option UserInfo)
    (queryDocs : Except Unit (List Document))
    (queryDel : Except Unit (List DeletionRecord)) :
    Cache × List DocumentSummary :=
  match userInfo with
  | some u =>
    let userCacheKeys := (mapKeys cache).filter (isUserKey u)
    let documents := userCacheKeys.filterMap (mapGet cache)
    if documents.length = 0 then
      let load := loadUserDocuments cache u queryDocs queryDel
      (load.1, load.2.map formatDocument)
    else
      let deletedDocumentIds := loadUserDeletionRecords queryDel
      if 0 < deletedDocumentIds.length then
        let filtered :=
          documents.filter (fun d => !(deletedDocumentIds.contains d.id))
        let cache' :=
          if documents.length ≠ filtered.length then
            deletedDocumentIds.foldl (fun c did => mapDelete c (userKey u did)) cache
          else cache
        (cache', filtered.map formatDocument)
      else (cache, documents.map formatDocument)
  | none => (cache, (mapValues cache).map formatDocument)

/-- `getDocument(documentId, userInfo)`.  The source checks `Map.has` and
then returns `Map.get` of the resolved key; here the two are fused into
the `Option` returned by `mapGet`.  No remote call is made and the cache
is not modified (the function is read-only, hence cache-in, value-out). -/
def getDocument (cache : Cache) (documentId : Str)
    (userInfo : Option UserInfo) : Except DocError Document :=
  let step1 : Option Document :=
    match userInfo with
    | some u => mapGet cache (userKey u documentId)
    | none => none
  match step1 with
  | some d => .ok d
  | none =>
    match mapGet cache documentId with
    | some d => .ok d
    | none =>
      match userInfo with
      | some u =>
        let userKeys := (mapKeys cache).filter (isUserKey u)
        match (userKeys.filterMap (mapGet cache)).find?
            (fun d => d.id == documentId) with
        | some d => .ok d
        | none => .error .notFound
      | none => .error .notFound

/-- The three-step cache-key resolution of `removeDocument` (textually the
same block as in `getDocument`, resolving the key instead of the
document): owner-scoped key, then bare legacy key, then a linear scan of
the owner's keys comparing the stored document's `id`. -/
def resolveCacheKey (cache : Cache) (documentId : Str) (u : UserInfo) :
    Option Str :=
  if mapHas cache (userKey u documentId) then some (userKey u documentId)
  else if mapHas cache documentId then some documentId
  else
    ((mapKeys cache).filter (isUserKey u)).find? (fun k =>
      match mapGet cache k with
      | some d => d.id == documentId
      | none => false)

/-- The deletion record constructed by `uploadDeletionRecord`. -/
def mkDeletionRecord (documentId : Str) (u : UserInfo) (now : Str) :
    DeletionRecord :=
  { type := str "DOCUMENT_DELETION", deletedDocumentId := documentId
    deletedAt := now, deletedByUserId := u.id, deletedByEmail := u.email
    version := str "1.0" }

instance {ε α : Type} [DecidableEq ε] [DecidableEq α] :
    DecidableEq (Except ε α) := fun x y =>
  match x, y with
  | .ok a, .ok b =>
    if h : a = b then isTrue (by rw [h])
    else isFalse (by intro hh; cases hh; exact h rfl)
  | .error a, .error b =>
    if h : a = b then isTrue (by rw [h])
    else isFalse (by intro hh; cases hh; exact h rfl)
  | .ok _, .error _ => isFalse (by intro hh; cases hh)
  | .error _, .ok _ => isFalse (by intro hh; cases hh)

/-- Everything observable about one `removeDocument` call: the cache after
the call, the result (or thrown error), and the deletion record sent to
the remote store when a tombstone write was attempted. -/
structure RemoveOutcome where
  cache : Cache
  result : Except DocError Unit
  uploaded : Option DeletionRecord
deriving DecidableEq, Repr

/-- `removeDocument(documentId, userInfo)`: requires an owner, resolves
the cache key with the three-step strategy, uploads a deletion record,
and only once that upload has succeeded deletes the cache entry.  A
thrown upload error is rethrown with the cache untouched. -/
def removeDocument (cache : Cache) (documentId : Str)
    (userInfo : Option UserInfo) (uploadDel : Except Unit IrysResult)
    (now : Str) : RemoveOutcome :=
  match userInfo with
  | none => ⟨cache, .error .authRequired, none⟩
  | some u =>
    match resolveCacheKey cache documentId u with
    | none => ⟨cache, .error .notFound, none⟩
    | some cacheKey =>
      let record := mkDeletionRecord documentId u now
      match uploadDel with
      | .error _ => ⟨cache, .error .uploadFailed, some record⟩
      | .ok _ => ⟨mapDelete cache cacheKey, .ok (), some record⟩

/-- A search result entry: the spread `{...document, relevanceScore}`. -/
structure ScoredDoc where
  doc : Document
  relevanceScore : Nat
deriving DecidableEq, Repr

/-- `calculateRelevanceScore(document, searchTerm)` (the term is already
lowercased by the caller): fixed additive weights for case-insensitive
substring matches on title, summary, content, URL and metadata tags. -/
def calculateRelevanceScore (d : Document) (searchTerm : Str) : Nat :=
  (if strIncludes (lower d.title) searchTerm then 10 else 0) +
  (if strIncludes (lower d.summary) searchTerm then 5 else 0) +
  (if strIncludes (lower d.content) searchTerm then 2 else 0) +
  (if strIncludes (lower d.url) searchTerm then 3 else 0) +
  (if (match d.metadata with
       | some m =>
         match m.tags with
         | some ts => ts.any (fun t => strIncludes (lower t) searchTerm)
         | none => false
       | none => false) then 4 else 0)

/-- The comparator `(a, b) => b.relevanceScore - a.relevanceScore` as the
total order a stable sort consumes: `a` may precede `b` iff
`b.relevanceScore <= a.relevanceScore`. -/
def scoreLE (a b : ScoredDoc) : Bool :=
  decide (b.relevanceScore ≤ a.relevanceScore)

/-- `searchDocuments(query)`: score every cached document (the whole
process-wide cache: this function takes no owner), keep strictly positive
scores in cache iteration order, stable-sort by descending score, return
the first 10. -/
def searchDocuments (cache : Cache) (query : Str) : List ScoredDoc :=
  let searchTerm := lower query
  let results := (mapValues cache).filterMap (fun d =>
    let score := calculateRelevanceScore d searchTerm
    if 0 < score then some ⟨d, score⟩ else none)
  (results.mergeSort scoreLE).take 10

/-- The `statistics` object of `getStatistics`. -/
structure Statistics where
  totalDocuments : Nat
  totalWords : Nat
  totalCharacters : Nat
  domains : List Str
  averageWordsPerDocument : Nat
deriving DecidableEq, Repr

/-- JS `Math.round(num / den)` for nonnegative integers, as exact
rational half-up rounding: `floor(num/den + 1/2)`.  (The double-precision
detour of the source can only diverge from this for astronomically large
word counts, far beyond 2^50.) -/
def jsRound (num den : Nat) : Nat := (2 * num + den) / (2 * den)

/-- `[...new Set(xs)]`: deduplication keeping first occurrences, in
order. -/
def firstDedup (seen : List Str) : List Str → List Str
  | [] => []
  | x :: xs =>
    if seen.contains x then firstDedup seen xs
    else x :: firstDedup (x :: seen) xs

/-- `getStatistics()`: aggregates over every cached document of the whole
process-wide cache (the function takes no owner).  `filter(Boolean)`
drops both missing and empty domains. -/
def getStatistics (cache : Cache) : Statistics :=
  let docs := mapValues cache
  let totalWords := docs.foldl (fun s d => s + d.wordCount) 0
  { totalDocuments := docs.length
    totalWords := totalWords
    totalCharacters := docs.foldl (fun s d => s + d.contentLength) 0
    domains := firstDedup []
      ((docs.filterMap (fun d => d.metadata.map (·.domain))).filter
        (fun s => s != []))
    averageWordsPerDocument :=
      if 0 < docs.length then jsRound totalWords docs.length else 0 }

/-- The `GET /api/documents` route (the `list` operation as exposed to
callers): `getAllDocuments(userInfo)` followed by `getStatistics()` on
the resulting cache. -/
def listEndpoint (cache : Cache) (userInfo : Option UserInfo)
    (queryDocs : Except Unit (List Document))
    (queryDel : Except Unit (List DeletionRecord)) :
    Cache × List DocumentSummary × Statistics :=
  let out := getAllDocuments cache userInfo queryDocs queryDel
  (out.1, out.2, getStatistics out.1)

/-! ### Helper lemmas about the cache embedding -/

theorem mem_mapSet {m : Cache} {k : Str} {v : Document} {p : Str × Document}
    (h : p ∈ mapSet m k v) : p ∈ m ∨ p = (k, v) := by
  unfold mapSet at h
  split at h
  · rcases List.mem_map.mp h with ⟨q, hq, hmap⟩
    by_cases hk : (q.1 == k) = true
    · right
      rw [if_pos hk] at hmap
      exact hmap.symm
    · left
      rw [if_neg hk] at hmap
      exact hmap ▸ hq
  · rcases List.mem_append.mp h with h' | h'
    · exact Or.inl h'
    · exact Or.inr (List.mem_singleton.mp h')

set_option synthInstance.maxHeartbeats 1000000 in
theorem find?_overwrite {m : Cache} {k : Str} (v : Document)
    (h : (m.any fun p => p.1 == k) = true) :
    (m.map (fun p => if p.1 == k then (k, v) else p)).find?
      (fun p => p.1 == k) = some (k, v) := by
  induction m with
  | nil => simp at h
  | cons a t ih =>
    by_cases ha : (a.1 == k) = true
    · rw [List.map_cons, if_pos ha]
      exact List.find?_cons_of_pos _ (by simp)
    · have ha' : (a.1 == k) = false := by simpa using ha
      rw [List.map_cons, if_neg ha]
      simp only [List.find?, ha']
      exact ih (by simpa [List.any_cons, ha] using h)

theorem mapGet_mapSet_self (m : Cache) (k : Str) (v : Document) :
    mapGet (mapSet m k v) k = some v := by
  unfold mapGet mapSet mapHas
  split
  · next hhas => rw [find?_overwrite v hhas]; rfl
  · next hhas =>
    rw [List.find?_append]
    have hnone : m.find? (fun p => p.1 == k) = none := by
      rw [List.find?_eq_none]
      intro p hp hpk
      exact hhas (List.any_eq_true.mpr ⟨p, hp, hpk⟩)
    rw [hnone]
    simp [List.find?]

theorem mem_of_mapGet {m : Cache} {k : Str} {v : Document}
    (h : mapGet m k = some v) : (k, v) ∈ m := by
  unfold mapGet at h
  rcases Option.map_eq_some'.mp h with ⟨p, hp, hv⟩
  have h1 : (p.1 == k) = true :=
    List.find?_some (p := fun q : Str × Document => q.1 == k) hp
  have h2 : p ∈ m := List.mem_of_find?_eq_some hp
  have hpkv : p = (k, v) := by
    cases p with
    | mk a b =>
      simp only at hv
      have : a = k := by simpa using h1
      rw [this, hv]
  exact hpkv ▸ h2

theorem mapHas_of_mapGet {m : Cache} {k : Str} {v : Document}
    (h : mapGet m k = some v) : mapHas m k = true :=
  List.any_eq_true.mpr ⟨(k, v), mem_of_mapGet h, by simp⟩

/-! ### Concrete fixtures used by witnesses and counterexamples -/

/-- A concrete metadata value. -/
def mdW : Metadata :=
  { domain := str "example.com", description := [], author := []
    publishDate := [], tags := some [str "ai"], language := str "en" }

/-- A concrete owner. -/
def uW : UserInfo := ⟨str "u1", str "a@x.com"⟩

/-- A concrete stored document owned by `uW`. -/
def docW : Document :=
  { id := str "d1", url := str "https://example.com/a", title := str "hello"
    content := str "body text", summary := str "sum", metadata := some mdW
    scrapedAt := str "t0", contentLength := 9, wordCount := 2
    addedAt := str "t1", status := str "stored", userInfo := some uW
    irysId := str "ir1", irysUrl := str "iru1", storedAt := str "t2" }

/-- A cache holding `docW` under its owner-scoped key. -/
def cacheW : Cache := [(str "u1_d1", docW)]

/-- A concrete upload receipt. -/
def irW : IrysResult := ⟨str "ir2", str "iru2", str "rc", str "t3"⟩

/-- A concrete scrape result. -/
def sdW : ScrapedData :=
  ⟨str "https://example.com/a", str "hello", str "body text", str "sum",
   some mdW, str "t0", 9, 2⟩

/-! ### C7 -/

/-- C7: reload is fail-soft.  For every owner and every deletion-record
query outcome, when the remote document query throws, `loadUserDocuments`
returns the empty list without raising and the cache — in particular the
owner's pre-existing slice — is untouched: the clearing and replacement
of the slice sit after the query in the control flow, so they are only
reached once the query has succeeded. -/
theorem loadUserDocuments_failSoft (cache : Cache) (u : UserInfo)
    (queryDel : Except Unit (List DeletionRecord)) :
    loadUserDocuments cache u (.error ()) queryDel = (cache, []) := rfl

/-! ### C5 -/

/-- C5: remove is fail-closed and atomic on error.  (1) With a null owner
it fails with AuthRequired for every upload outcome — so the tombstone
write cannot have been consulted — and the cache is unchanged; (2) with
an unresolvable id it fails with NotFound, again for every upload
outcome, cache unchanged and no record uploaded; (3) if the tombstone
write fails the error is surfaced and the cache entry is retained; (4)
the entry is evicted exactly when the write has succeeded. -/
theorem removeDocument_failClosed (cache : Cache) (documentId : Str)
    (u : UserInfo) (upl : Except Unit IrysResult) (ir : IrysResult)
    (now : Str) :
    (removeDocument cache documentId none upl now =
      ⟨cache, .error .authRequired, none⟩) ∧
    (resolveCacheKey cache documentId u = none →
      removeDocument cache documentId (some u) upl now =
        ⟨cache, .error .notFound, none⟩) ∧
    ((resolveCacheKey cache documentId u).isSome = true →
      removeDocument cache documentId (some u) (.error ()) now =
        ⟨cache, .error .uploadFailed,
         some (mkDeletionRecord documentId u now)⟩) ∧
    (∀ k, resolveCacheKey cache documentId u = some k →
      removeDocument cache documentId (some u) (.ok ir) now =
        ⟨mapDelete cache k, .ok (),
         some (mkDeletionRecord documentId u now)⟩) := by
  refine ⟨rfl, fun h => ?_, fun h => ?_, fun k hk => ?_⟩
  · simp [removeDocument, h]
  · rcases Option.isSome_iff_exists.mp h with ⟨k, hk⟩
    simp [removeDocument, hk]
  · simp [removeDocument, hk]

/-- Witness for C5: each failure mode and the success mode of
`removeDocument`, exercised on a concrete one-entry cache. -/
theorem removeDocument_failClosed_witness :
    (removeDocument cacheW (str "d1") none (.ok irW) (str "t4") =
      ⟨cacheW, .error .authRequired, none⟩) ∧
    (removeDocument cacheW (str "zz") (some uW) (.ok irW) (str "t4") =
      ⟨cacheW, .error .notFound, none⟩) ∧
    (removeDocument cacheW (str "d1") (some uW) (.error ()) (str "t4") =
      ⟨cacheW, .error .uploadFailed,
       some (mkDeletionRecord (str "d1") uW (str "t4"))⟩) ∧
    (removeDocument cacheW (str "d1") (some uW) (.ok irW) (str "t4") =
      ⟨mapDelete cacheW (str "u1_d1"), .ok (),
       some (mkDeletionRecord (str "d1") uW (str "t4"))⟩) :=
  ⟨(removeDocument_failClosed cacheW (str "d1") uW (.ok irW) irW
      (str "t4")).1,
   (removeDocument_failClosed cacheW (str "zz") uW (.ok irW) irW
      (str "t4")).2.1 (by decide),
   (removeDocument_failClosed cacheW (str "d1") uW (.error ()) irW
      (str "t4")).2.2.1 (by decide),
   (removeDocument_failClosed cacheW (str "d1") uW (.ok irW) irW
      (str "t4")).2.2.2 (str "u1_d1") (by decide)⟩

/-! ### C6 -/

/-- C6: add is atomic on failure.  The URL check comes first: when it
fails, the result is the single invalid-URL error and does not depend on
the scrape or upload outcome at all (both are quantified), so no network
call is consulted; when extraction fails, and when the upload fails, the
single corresponding error is raised.  In every failure case the
returned cache is exactly the input cache: nothing partial is cached or
returned. -/
theorem addDocument_atomicOnFailure (cache : Cache) (url : Str)
    (userInfo : Option UserInfo) (scr : Except Unit ScrapedData)
    (upl : Except Unit IrysResult) (sd : ScrapedData) (gid now : Str) :
    (isValidUrl url = false →
      addDocument cache url userInfo scr upl gid now =
        (cache, .error .invalidUrl)) ∧
    (isValidUrl url = true →
      addDocument cache url userInfo (.error ()) upl gid now =
        (cache, .error .extractionFailed)) ∧
    (isValidUrl url = true →
      addDocument cache url userInfo (.ok sd) (.error ()) gid now =
        (cache, .error .uploadFailed)) := by
  refine ⟨fun h => ?_, fun h => ?_, fun h => ?_⟩ <;> simp [addDocument, h]

/-- Witness for C6: an invalid URL aborts before scraping, and a valid
URL with a failed scrape or failed upload aborts without caching. -/
theorem addDocument_atomicOnFailure_witness :
    (addDocument cacheW (str "notaurl") (some uW) (.ok sdW) (.ok irW)
      (str "d9") (str "t9") = (cacheW, .error .invalidUrl)) ∧
    (addDocument cacheW (str "https://example.com/a") (some uW) (.error ())
      (.ok irW) (str "d9") (str "t9") = (cacheW, .error .extractionFailed)) ∧
    (addDocument cacheW (str "https://example.com/a") (some uW) (.ok sdW)
      (.error ()) (str "d9") (str "t9") = (cacheW, .error .uploadFailed)) :=
  ⟨(addDocument_atomicOnFailure cacheW (str "notaurl") (some uW) (.ok sdW)
      (.ok irW) sdW (str "d9") (str "t9")).1 (by decide),
   (addDocument_atomicOnFailure cacheW (str "https://example.com/a")
      (some uW) (.error ()) (.ok irW) sdW (str "d9") (str "t9")).2.1
      (by decide),
   (addDocument_atomicOnFailure cacheW (str "https://example.com/a")
      (some uW) (.ok sdW) (.error ()) sdW (str "d9") (str "t9")).2.2
      (by decide)⟩

/-! ### C8 -/

/-- The resolution procedure as the specification words it: (1) the
owner-scoped cache entry for the id, else (2) the legacy unscoped cache
entry, else (3) a linear scan of the owner's cached entries comparing
each stored document id to the requested one; the first match is
returned and the failure is NotFound.  With no owner there is no
owner-scoped key and no owner slice to scan, so only step (2) can
apply. -/
def specGetResolution (cache : Cache) (documentId : Str)
    (userInfo : Option UserInfo) : Except DocError Document :=
  let ownerScoped : Option Document :=
    match userInfo with
    | some u => mapGet cache (userKey u documentId)
    | none => none
  let legacy : Option Document := mapGet cache documentId
  let scanned : Option Document :=
    match userInfo with
    | some u =>
      (((mapKeys cache).filter (isUserKey u)).filterMap (mapGet cache)).find?
        (fun d => d.id == documentId)
    | none => none
  match ownerScoped.orElse (fun _ => legacy.orElse (fun _ => scanned)) with
  | some d => .ok d
  | none => .error .notFound

/-- C8: `getDocument` resolves ids in exactly the three-step order the
specification describes, returns the first match, and fails with
NotFound when none matches.  The embedding makes the remaining parts of
the claim structural: `getDocument` consumes no remote-query outcome
(it cannot contact the remote store) and returns only a value (it cannot
modify the cache). -/
theorem getDocument_resolution (cache : Cache) (documentId : Str)
    (userInfo : Option UserInfo) :
    getDocument cache documentId userInfo =
      specGetResolution cache documentId userInfo := by
  cases userInfo with
  | none =>
    simp only [getDocument, specGetResolution]
    cases mapGet cache documentId <;> rfl
  | some u =>
    simp only [getDocument, specGetResolution]
    cases mapGet cache (userKey u documentId) with
    | some d => rfl
    | none =>
      cases mapGet cache documentId with
      | some d => rfl
      | none =>
        cases (((mapKeys cache).filter (isUserKey u)).filterMap
            (mapGet cache)).find? (fun d => d.id == documentId) <;> rfl

/-! ### C10 -/

/-- C10: add-then-get round trip.  When `addDocument` succeeds for an
owner (valid URL, successful scrape and upload) returning id `d`, an
immediately following `getDocument d` for the same owner succeeds on the
resulting cache and returns the cached document, whose id is `d` and
whose status is stored. -/
theorem addThenGet (c0 : Cache) (url : Str) (A : UserInfo)
    (sd : ScrapedData) (ir : IrysResult) (d now : Str)
    (hvalid : isValidUrl url = true) :
    ∃ resp, (addDocument c0 url (some A) (.ok sd) (.ok ir) d now).2 =
        .ok resp ∧ resp.id = d ∧
      ∃ doc, getDocument (addDocument c0 url (some A) (.ok sd) (.ok ir)
          d now).1 d (some A) = .ok doc ∧
        doc.id = d ∧ doc.status = str "stored" := by
  have h1 : addDocument c0 url (some A) (.ok sd) (.ok ir) d now =
      (mapSet c0 (userKey A d)
        { id := d, url := sd.url, title := sd.title, content := sd.content
          summary := sd.summary, metadata := sd.metadata
          scrapedAt := sd.scrapedAt, contentLength := sd.contentLength
          wordCount := sd.wordCount, addedAt := now, status := str "stored"
          userInfo := some A, irysId := ir.id, irysUrl := ir.url
          storedAt := ir.timestamp },
       .ok { id := d, title := sd.title, url := sd.url, summary := sd.summary
             irysId := ir.id, irysUrl := ir.url, addedAt := now
             contentLength := sd.contentLength, wordCount := sd.wordCount
             metadata := sd.metadata, userInfo := some A }) := by
    simp [addDocument, hvalid]
  rw [h1]
  refine ⟨_, rfl, rfl, ?_⟩
  refine ⟨{ id := d, url := sd.url, title := sd.title, content := sd.content
            summary := sd.summary, metadata := sd.metadata
            scrapedAt := sd.scrapedAt, contentLength := sd.contentLength
            wordCount := sd.wordCount, addedAt := now, status := str "stored"
            userInfo := some A, irysId := ir.id, irysUrl := ir.url
            storedAt := ir.timestamp }, ?_, rfl, rfl⟩
  simp only [getDocument, mapGet_mapSet_self]

/-- Witness for C10: the round trip on a concrete empty starting cache
and concrete scrape and upload results. -/
theorem addThenGet_witness :
    ∃ resp, (addDocument [] (str "https://example.com/a") (some uW)
        (.ok sdW) (.ok irW) (str "d9") (str "t9")).2 = .ok resp ∧
      resp.id = str "d9" ∧
      ∃ doc, getDocument (addDocument [] (str "https://example.com/a")
          (some uW) (.ok sdW) (.ok irW) (str "d9") (str "t9")).1
          (str "d9") (some uW) = .ok doc ∧
        doc.id = str "d9" ∧ doc.status = str "stored" :=
  addThenGet [] (str "https://example.com/a") uW sdW irW (str "d9")
    (str "t9") (by decide)

/-! ### C1 -/

theorem mem_foldl_mapSet {u : UserInfo} {p : Str × Document} :
    ∀ (docs : List Document) {base : Cache},
    p ∈ docs.foldl (fun c doc => mapSet c (userKey u doc.id) doc) base →
    p ∈ base ∨ ∃ doc ∈ docs, p = (userKey u doc.id, doc)
  | [], _, h => Or.inl h
  | a :: t, base, h => by
    rcases mem_foldl_mapSet t h with hbase | ⟨doc, hdoc, rfl⟩
    · rcases mem_mapSet hbase with h' | rfl
      · exact Or.inl h'
      · exact Or.inr ⟨a, List.mem_cons_self a t, rfl⟩
    · exact Or.inr ⟨doc, List.mem_cons_of_mem a hdoc, rfl⟩

/-- C1: delete is durable across reload.  After a successful
`addDocument` for owner `A` returning id `d` and a successful
`removeDocument d` (which uploads a deletion record for `d`), a
`loadUserDocuments A` in which the remote store returns the original
document among `A`'s documents and the deletion record for `d` among
`A`'s deletion records yields a result without `d`, and afterwards no
entry of `A`'s cache slice holds a document with id `d`. -/
theorem deleteDurableAcrossReload
    (c0 : Cache) (A : UserInfo) (url : Str) (sd : ScrapedData)
    (ir ir2 : IrysResult) (d now now2 : Str)
    (remoteDocs : List Document) (delRecs : List DeletionRecord)
    (hvalid : isValidUrl url = true)
    (horig : ∃ doc ∈ remoteDocs, doc.id = d)
    (hrec : ∃ r ∈ delRecs, r.deletedDocumentId = d) :
    (∃ resp, (addDocument c0 url (some A) (.ok sd) (.ok ir) d now).2 =
        .ok resp ∧ resp.id = d) ∧
    ((removeDocument (addDocument c0 url (some A) (.ok sd) (.ok ir)
        d now).1 d (some A) (.ok ir2) now2).result = .ok ()) ∧
    ((removeDocument (addDocument c0 url (some A) (.ok sd) (.ok ir)
        d now).1 d (some A) (.ok ir2) now2).uploaded =
      some (mkDeletionRecord d A now2)) ∧
    (∀ doc ∈ (loadUserDocuments (removeDocument (addDocument c0 url
        (some A) (.ok sd) (.ok ir) d now).1 d (some A) (.ok ir2)
        now2).cache A (.ok remoteDocs) (.ok delRecs)).2, doc.id ≠ d) ∧
    (∀ p ∈ (loadUserDocuments (removeDocument (addDocument c0 url
        (some A) (.ok sd) (.ok ir) d now).1 d (some A) (.ok ir2)
        now2).cache A (.ok remoteDocs) (.ok delRecs)).1,
      isUserKey A p.1 = true → p.2.id ≠ d) := by
  have hcontains :
      ((delRecs.map (·.deletedDocumentId)).contains d) = true := by
    rcases hrec with ⟨r, hr, hrd⟩
    rw [List.contains_eq_any_beq, List.any_eq_true]
    exact ⟨d, List.mem_map.mpr ⟨r, hr, hrd⟩, by simp⟩
  have hactive : ∀ doc ∈ remoteDocs.filter
      (fun doc => !((delRecs.map (·.deletedDocumentId)).contains doc.id)),
      doc.id ≠ d := by
    intro doc hdoc hdd
    have := (List.mem_filter.mp hdoc).2
    rw [hdd, hcontains] at this
    exact absurd this (by simp)
  have h1 : addDocument c0 url (some A) (.ok sd) (.ok ir) d now =
      (mapSet c0 (userKey A d)
        { id := d, url := sd.url, title := sd.title, content := sd.content
          summary := sd.summary, metadata := sd.metadata
          scrapedAt := sd.scrapedAt, contentLength := sd.contentLength
          wordCount := sd.wordCount, addedAt := now, status := str "stored"
          userInfo := some A, irysId := ir.id, irysUrl := ir.url
          storedAt := ir.timestamp },
       .ok { id := d, title := sd.title, url := sd.url, summary := sd.summary
             irysId := ir.id, irysUrl := ir.url, addedAt := now
             contentLength := sd.contentLength, wordCount := sd.wordCount
             metadata := sd.metadata, userInfo := some A }) := by
    simp [addDocument, hvalid]
  rw [h1]
  have hhas : mapHas (mapSet c0 (userKey A d)
      { id := d, url := sd.url, title := sd.title, content := sd.content
        summary := sd.summary, metadata := sd.metadata
        scrapedAt := sd.scrapedAt, contentLength := sd.contentLength
        wordCount := sd.wordCount, addedAt := now, status := str "stored"
        userInfo := some A, irysId := ir.id, irysUrl := ir.url
        storedAt := ir.timestamp }) (userKey A d) = true :=
    mapHas_of_mapGet (mapGet_mapSet_self ..)
  have hres : resolveCacheKey (mapSet c0 (userKey A d)
      { id := d, url := sd.url, title := sd.title, content := sd.content
        summary := sd.summary, metadata := sd.metadata
        scrapedAt := sd.scrapedAt, contentLength := sd.contentLength
        wordCount := sd.wordCount, addedAt := now, status := str "stored"
        userInfo := some A, irysId := ir.id, irysUrl := ir.url
        storedAt := ir.timestamp }) d A = some (userKey A d) := by
    unfold resolveCacheKey
    rw [if_pos hhas]
  have hrem : removeDocument (mapSet c0 (userKey A d)
      { id := d, url := sd.url, title := sd.title, content := sd.content
        summary := sd.summary, metadata := sd.metadata
        scrapedAt := sd.scrapedAt, contentLength := sd.contentLength
        wordCount := sd.wordCount, addedAt := now, status := str "stored"
        userInfo := some A, irysId := ir.id, irysUrl := ir.url
        storedAt := ir.timestamp }) d (some A) (.ok ir2) now2 =
      ⟨mapDelete (mapSet c0 (userKey A d)
        { id := d, url := sd.url, title := sd.title, content := sd.content
          summary := sd.summary, metadata := sd.metadata
          scrapedAt := sd.scrapedAt, contentLength := sd.contentLength
          wordCount := sd.wordCount, addedAt := now, status := str "stored"
          userInfo := some A, irysId := ir.id, irysUrl := ir.url
          storedAt := ir.timestamp }) (userKey A d), .ok (),
       some (mkDeletionRecord d A now2)⟩ := by
    simp [removeDocument, hres]
  rw [hrem]
  refine ⟨⟨_, rfl, rfl⟩, rfl, rfl, ?_, ?_⟩
  · intro doc hdoc
    exact hactive doc hdoc
  · intro p hp hkey
    rcases mem_foldl_mapSet _ hp with hcl | ⟨doc, hdoc, rfl⟩
    · have := (List.mem_filter.mp hcl).2
      rw [hkey] at this
      exact absurd this (by simp)
    · exact hactive doc hdoc

/-! ### C2 -/

/-- Counterexample to C2 as stated.  The remote store durably holds the
document `docW` (id d1) and the deletion record for (d1, uW) — witnessed
by the first conjunct, where both remote queries succeed during a
cache-cold listing and d1 is duly hidden.  The second conjunct is the
same cache-cold listing over the same remote contents, but with the
deletion-record query failing (an outcome the claim explicitly
quantifies over): `loadUserDeletionRecords` swallows the failure into an
empty tombstone set and the listing resurfaces d1.  So d1 does appear in
a subsequent `list(A)` despite the existing DeletionRecord, refuting the
claim for this execution. -/
theorem tombstonePermanence_cex :
    ((getAllDocuments [] (some uW) (.ok [docW])
        (.ok [mkDeletionRecord (str "d1") uW (str "t4")])).2).map
      (fun f => f.id) = [] ∧
    ((getAllDocuments [] (some uW) (.ok [docW]) (.error ())).2).map
      (fun f => f.id) = [str "d1"] := by decide

/-- C2 amended: tombstone permanence holds for every listing in which the
deletion-record queries performed along the way succeed (returning the
stored records).  Once a deletion record for `(d, A)` is among the
queried records, `d` appears neither in `getAllDocuments` (warm or cold
cache) nor in `loadUserDocuments` results.  When a deletion-record query
fails, the code falls back to an empty tombstone set, so the claim's
stronger "whatever the outcomes of the remote queries" form does not
hold (see the counterexample). -/
theorem tombstonePermanence_amended (cache : Cache) (A : UserInfo)
    (d : Str) (qd : Except Unit (List Document))
    (delRecs : List DeletionRecord)
    (hrec : ∃ r ∈ delRecs, r.deletedDocumentId = d) :
    (∀ f ∈ (getAllDocuments cache (some A) qd (.ok delRecs)).2,
      f.id ≠ d) ∧
    (∀ doc ∈ (loadUserDocuments cache A qd (.ok delRecs)).2,
      doc.id ≠ d) := by
  have hcontains :
      ((delRecs.map (·.deletedDocumentId)).contains d) = true := by
    rcases hrec with ⟨r, hr, hrd⟩
    rw [List.contains_eq_any_beq, List.any_eq_true]
    exact ⟨d, List.mem_map.mpr ⟨r, hr, hrd⟩, by simp⟩
  have hid : ∀ (l : List Document), ∀ doc ∈ l.filter
      (fun doc => !((delRecs.map (·.deletedDocumentId)).contains doc.id)),
      doc.id ≠ d := by
    intro l doc hdoc hdd
    have := (List.mem_filter.mp hdoc).2
    rw [hdd, hcontains] at this
    exact absurd this (by simp)
  have hload : ∀ doc ∈ (loadUserDocuments cache A qd (.ok delRecs)).2,
      doc.id ≠ d := by
    cases qd with
    | error e => intro doc hdoc; exact absurd hdoc (List.not_mem_nil _)
    | ok docs => exact fun doc hdoc => hid docs doc hdoc
  refine ⟨?_, hload⟩
  intro f hf
  simp only [getAllDocuments] at hf
  split at hf
  · rcases List.mem_map.mp hf with ⟨doc, hdoc, rfl⟩
    exact hload doc hdoc
  · split at hf
    · rcases List.mem_map.mp hf with ⟨doc, hdoc, rfl⟩
      exact hid _ doc hdoc
    · next hlen =>
      exfalso
      rcases hrec with ⟨r, hr, _⟩
      exact hlen (by
        have : 0 < delRecs.length := List.length_pos_of_mem hr
        simpa [loadUserDeletionRecords] using this)

/-! ### C3 -/

/-- The document that a successful `addDocument` of `sdW`/`irW` under
`uW` with generated id d1 at time t1 caches. -/
def docAdded : Document :=
  { id := str "d1", url := sdW.url, title := sdW.title
    content := sdW.content, summary := sdW.summary, metadata := sdW.metadata
    scrapedAt := sdW.scrapedAt, contentLength := sdW.contentLength
    wordCount := sdW.wordCount, addedAt := str "t1", status := str "stored"
    userInfo := some uW, irysId := irW.id, irysUrl := irW.url
    storedAt := irW.timestamp }

/-- An owner whose id contains an underscore. -/
def uA3 : UserInfo := ⟨str "u1_x", str "c@x.com"⟩

/-- An owner whose id is a proper underscore-delimited prefix of
`uA3`'s. -/
def uB3 : UserInfo := ⟨str "u1", str "b@x.com"⟩

/-- A second plain owner, distinct from `uW`. -/
def uB : UserInfo := ⟨str "u2", str "b@x.com"⟩

/-- Counterexample to C3 as stated, in both of its parts.  First
conjunct: after owner uW adds a document (id d1, title "hello"),
`searchDocuments "hello"` returns it — and since `searchDocuments` takes
no owner whatsoever, this is exactly what search(q, B) executes for
every owner B ≠ uW: A's document appears in B's search results.  Second
conjunct: owner uA3 (id "u1_x") adds a document (id d2), and list(uB3)
for the distinct owner uB3 (id "u1") returns it, because the cache key
"u1_x_d2" starts with the key prefix "u1_". -/
theorem ownerIsolation_cex :
    ((searchDocuments (addDocument [] (str "https://example.com/a")
        (some uW) (.ok sdW) (.ok irW) (str "d1") (str "t1")).1
        (str "hello")).map (fun x => x.doc.id) = [str "d1"]) ∧
    (((getAllDocuments (addDocument [] (str "https://example.com/a")
        (some uA3) (.ok sdW) (.ok irW) (str "d2") (str "t1")).1
        (some uB3) (.ok []) (.ok [])).2).map (fun f => f.id) =
      [str "d2"]) := by
  constructor
  · have h1 : (addDocument [] (str "https://example.com/a") (some uW)
        (.ok sdW) (.ok irW) (str "d1") (str "t1")).1 =
        [(str "u1_d1", docAdded)] := by decide
    have h3 : (mapValues [(str "u1_d1", docAdded)]).filterMap (fun d =>
        if 0 < calculateRelevanceScore d (lower (str "hello")) then
          some (ScoredDoc.mk d
            (calculateRelevanceScore d (lower (str "hello"))))
        else none) = [ScoredDoc.mk docAdded 10] := by decide
    have h2 : searchDocuments [(str "u1_d1", docAdded)] (str "hello") =
        [ScoredDoc.mk docAdded 10] := by
      calc searchDocuments [(str "u1_d1", docAdded)] (str "hello")
          = (((mapValues [(str "u1_d1", docAdded)]).filterMap (fun d =>
              if 0 < calculateRelevanceScore d (lower (str "hello")) then
                some (ScoredDoc.mk d
                  (calculateRelevanceScore d (lower (str "hello"))))
              else none)).mergeSort scoreLE).take 10 := rfl
        _ = (([ScoredDoc.mk docAdded 10] :
              List ScoredDoc).mergeSort scoreLE).take 10 := by rw [h3]
        _ = [ScoredDoc.mk docAdded 10] := by
              rw [List.mergeSort_singleton]
              decide
    rw [h1, h2]
    decide
  · decide

/-- C3 amended: for distinct owners A and B, a document freshly added
under A does not appear in list(B), provided B's key prefix does not
collide with the new entry's cache key (isUserKey B (userKey A d) =
false — guaranteed, e.g., whenever owner ids are underscore-free, and
violated in the counterexample), the id is fresh in the cache, and B's
own remote query does not return a document with that id.  No analogous
statement holds for search: `searchDocuments` takes no owner and scores
the whole process-wide cache, so it provides no owner isolation at
all (see the counterexample). -/
theorem ownerIsolation_amended (c0 : Cache) (A B : UserInfo) (url : Str)
    (sd : ScrapedData) (ir : IrysResult) (d now : Str)
    (qd : Except Unit (List Document))
    (qdel : Except Unit (List DeletionRecord))
    (hAB : A ≠ B)
    (hvalid : isValidUrl url = true)
    (hfresh : ∀ p ∈ c0, p.2.id ≠ d)
    (hq : ∀ docs, qd = Except.ok docs → ∀ x ∈ docs, x.id ≠ d)
    (hkey : isUserKey B (userKey A d) = false) :
    ∀ f ∈ (getAllDocuments (addDocument c0 url (some A) (.ok sd) (.ok ir)
        d now).1 (some B) qd qdel).2, f.id ≠ d := by
  have h1 : addDocument c0 url (some A) (.ok sd) (.ok ir) d now =
      (mapSet c0 (userKey A d)
        { id := d, url := sd.url, title := sd.title, content := sd.content
          summary := sd.summary, metadata := sd.metadata
          scrapedAt := sd.scrapedAt, contentLength := sd.contentLength
          wordCount := sd.wordCount, addedAt := now, status := str "stored"
          userInfo := some A, irysId := ir.id, irysUrl := ir.url
          storedAt := ir.timestamp },
       .ok { id := d, title := sd.title, url := sd.url, summary := sd.summary
             irysId := ir.id, irysUrl := ir.url, addedAt := now
             contentLength := sd.contentLength, wordCount := sd.wordCount
             metadata := sd.metadata, userInfo := some A }) := by
    simp [addDocument, hvalid]
  rw [h1]
  have hent : ∀ p ∈ mapSet c0 (userKey A d)
      { id := d, url := sd.url, title := sd.title, content := sd.content
        summary := sd.summary, metadata := sd.metadata
        scrapedAt := sd.scrapedAt, contentLength := sd.contentLength
        wordCount := sd.wordCount, addedAt := now, status := str "stored"
        userInfo := some A, irysId := ir.id, irysUrl := ir.url
        storedAt := ir.timestamp },
      isUserKey B p.1 = true → p.2.id ≠ d := by
    intro p hp hkB
    rcases mem_mapSet hp with hm | heq
    · exact hfresh _ hm
    · have hk1 : p.1 = userKey A d := congrArg Prod.fst heq
      rw [hk1, hkey] at hkB
      exact absurd hkB (by simp)
  have hdocs : ∀ doc ∈ ((mapKeys (mapSet c0 (userKey A d)
      { id := d, url := sd.url, title := sd.title, content := sd.content
        summary := sd.summary, metadata := sd.metadata
        scrapedAt := sd.scrapedAt, contentLength := sd.contentLength
        wordCount := sd.wordCount, addedAt := now, status := str "stored"
        userInfo := some A, irysId := ir.id, irysUrl := ir.url
        storedAt := ir.timestamp })).filter (isUserKey B)).filterMap
      (mapGet (mapSet c0 (userKey A d)
      { id := d, url := sd.url, title := sd.title, content := sd.content
        summary := sd.summary, metadata := sd.metadata
        scrapedAt := sd.scrapedAt, contentLength := sd.contentLength
        wordCount := sd.wordCount, addedAt := now, status := str "stored"
        userInfo := some A, irysId := ir.id, irysUrl := ir.url
        storedAt := ir.timestamp })), doc.id ≠ d := by
    intro doc hdoc
    rcases List.mem_filterMap.mp hdoc with ⟨k, hk, hget⟩
    exact hent (k, doc) (mem_of_mapGet hget) (List.mem_filter.mp hk).2
  intro f hf
  simp only [getAllDocuments] at hf
  split at hf
  · rcases List.mem_map.mp hf with ⟨doc, hdoc, rfl⟩
    cases qd with
    | error e => exact absurd hdoc (List.not_mem_nil _)
    | ok docs =>
      have hmem : doc ∈ docs := (List.mem_filter.mp hdoc).1
      exact hq docs rfl doc hmem
  · split at hf
    · rcases List.mem_map.mp hf with ⟨doc, hdoc, rfl⟩
      exact hdocs doc (List.mem_filter.mp hdoc).1
    · rcases List.mem_map.mp hf with ⟨doc, hdoc, rfl⟩
      exact hdocs doc hdoc

/-- Witness for the amended C3: owner uW adds a document (id d1) into an
empty cache; list(uB) for the distinct plain owner uB contains no entry
with id d1. -/
theorem ownerIsolation_amended_witness :
    ((getAllDocuments (addDocument [] (str "https://example.com/a")
        (some uW) (.ok sdW) (.ok irW) (str "d1") (str "t1")).1
        (some uB) (.ok []) (.ok [])).2).all
      (fun f => f.id != str "d1") = true := by
  apply List.all_eq_true.mpr
  intro f hf
  have h := ownerIsolation_amended [] uW uB (str "https://example.com/a")
    sdW irW (str "d1") (str "t1") (.ok []) (.ok [])
    (by decide)
    (by decide)
    (by intro p hp; exact absurd hp (List.not_mem_nil _))
    (by intro docs heq x hx; cases heq; exact absurd hx (List.not_mem_nil _))
    (by decide) f hf
  simpa using h

/-! ### Witnesses for C1 and the amended C2 -/

/-- Witness for C1: the full add / remove / reload sequence on concrete
data.  The remote store returns the original document `docW` (id d1)
and the deletion record for d1. -/
theorem deleteDurableAcrossReload_witness :
    (∃ resp, (addDocument [] (str "https://example.com/a") (some uW)
        (.ok sdW) (.ok irW) (str "d1") (str "t1")).2 =
        .ok resp ∧ resp.id = str "d1") ∧
    ((removeDocument (addDocument [] (str "https://example.com/a")
        (some uW) (.ok sdW) (.ok irW) (str "d1") (str "t1")).1 (str "d1")
        (some uW) (.ok irW) (str "t4")).result = .ok ()) ∧
    ((removeDocument (addDocument [] (str "https://example.com/a")
        (some uW) (.ok sdW) (.ok irW) (str "d1") (str "t1")).1 (str "d1")
        (some uW) (.ok irW) (str "t4")).uploaded =
      some (mkDeletionRecord (str "d1") uW (str "t4"))) ∧
    (∀ doc ∈ (loadUserDocuments (removeDocument (addDocument []
        (str "https://example.com/a") (some uW) (.ok sdW) (.ok irW)
        (str "d1") (str "t1")).1 (str "d1") (some uW) (.ok irW)
        (str "t4")).cache uW (.ok [docW])
        (.ok [mkDeletionRecord (str "d1") uW (str "t4")])).2,
      doc.id ≠ str "d1") ∧
    (∀ p ∈ (loadUserDocuments (removeDocument (addDocument []
        (str "https://example.com/a") (some uW) (.ok sdW) (.ok irW)
        (str "d1") (str "t1")).1 (str "d1") (some uW) (.ok irW)
        (str "t4")).cache uW (.ok [docW])
        (.ok [mkDeletionRecord (str "d1") uW (str "t4")])).1,
      isUserKey uW p.1 = true → p.2.id ≠ str "d1") :=
  deleteDurableAcrossReload [] uW (str "https://example.com/a") sdW irW
    irW (str "d1") (str "t1") (str "t4") [docW]
    [mkDeletionRecord (str "d1") uW (str "t4")]
    (by decide)
    ⟨docW, List.mem_singleton.mpr rfl, rfl⟩
    ⟨mkDeletionRecord (str "d1") uW (str "t4"),
     List.mem_singleton.mpr rfl, rfl⟩

/-- Witness for the amended C2: with the deletion record for (d1, uW)
among the successfully queried records, d1 appears neither in the warm
listing over `cacheW` nor in the reload result. -/
theorem tombstonePermanence_amended_witness :
    (∀ f ∈ (getAllDocuments cacheW (some uW) (.ok [docW])
        (.ok [mkDeletionRecord (str "d1") uW (str "t4")])).2,
      f.id ≠ str "d1") ∧
    (∀ doc ∈ (loadUserDocuments cacheW uW (.ok [docW])
        (.ok [mkDeletionRecord (str "d1") uW (str "t4")])).2,
      doc.id ≠ str "d1") :=
  tombstonePermanence_amended cacheW uW (str "d1") (.ok [docW])
    [mkDeletionRecord (str "d1") uW (str "t4")]
    ⟨mkDeletionRecord (str "d1") uW (str "t4"),
     List.mem_singleton.mpr rfl, rfl⟩

/-! ### C9 -/

/-- A document owned by `uB`, with a different word count and domain. -/
def docB9 : Document :=
  { id := str "d3", url := str "https://other.org/p", title := str "other"
    content := str "abcd", summary := str "s2"
    metadata := some { domain := str "other.org", description := []
                       author := [], publishDate := [], tags := none
                       language := str "en" }
    scrapedAt := str "t0", contentLength := 4, wordCount := 7
    addedAt := str "t1", status := str "stored", userInfo := some uB
    irysId := str "ir3", irysUrl := str "iru3", storedAt := str "t2" }

/-- A cache holding one document of `uW` (2 words) and one of `uB`
(7 words). -/
def cache9 : Cache := [(str "u1_d1", docW), (str "u2_d3", docB9)]

/-- Counterexample to C9 as stated: the list endpoint for owner uW
returns exactly one summary (uW owns one document, with 2 words), but
the accompanying statistics report 2 documents and 9 total words —
`getStatistics` aggregates the whole process-wide cache, including uB's
document, not "that owner's documents". -/
theorem listStatistics_cex :
    ((listEndpoint cache9 (some uW) (.ok []) (.ok [])).2.1).length = 1 ∧
    (listEndpoint cache9 (some uW) (.ok []) (.ok [])).2.2.totalDocuments
      = 2 ∧
    (listEndpoint cache9 (some uW) (.ok []) (.ok [])).2.2.totalWords
      = 9 := by decide

theorem contains_iff_mem {l : List Str} {x : Str} :
    l.contains x = true ↔ x ∈ l := by
  rw [List.contains_eq_any_beq, List.any_eq_true]
  constructor
  · rintro ⟨y, hy, hxy⟩
    rw [eq_of_beq hxy]
    exact hy
  · intro h
    exact ⟨x, h, by simp⟩

theorem not_mem_firstDedup :
    ∀ (l seen : List Str) (x : Str), x ∈ seen → x ∉ firstDedup seen l
  | [], _, _, _ => fun hx => absurd hx (List.not_mem_nil _)
  | a :: t, seen, x, hseen => by
    unfold firstDedup
    split
    · exact not_mem_firstDedup t seen x hseen
    · next hna =>
      intro hx
      rcases List.mem_cons.mp hx with rfl | hx'
      · exact hna (contains_iff_mem.mpr hseen)
      · exact not_mem_firstDedup t (a :: seen) x
          (List.mem_cons_of_mem a hseen) hx'

theorem firstDedup_nodup : ∀ (l seen : List Str), (firstDedup seen l).Nodup
  | [], _ => List.nodup_nil
  | a :: t, seen => by
    unfold firstDedup
    split
    · exact firstDedup_nodup t seen
    · exact List.nodup_cons.mpr
        ⟨not_mem_firstDedup t (a :: seen) a (List.mem_cons_self a seen),
         firstDedup_nodup t (a :: seen)⟩

theorem foldl_add_count (f : Document → Nat) :
    ∀ (l : List Document) (n : Nat),
    l.foldl (fun s d => s + f d) n = n + (l.map f).sum
  | [], n => by simp
  | a :: t, n => by
    rw [List.foldl_cons, foldl_add_count f t (n + f a), List.map_cons,
      List.sum_cons]
    omega

/-- C9 amended: the list endpoint returns content-free summaries (the
image of the `formatDocument` projection) of the owner's documents,
together with statistics computed over every document of the whole
process-wide cache after the listing — not over that owner's documents
alone (see the counterexample): the document count, the total word
count, the total character count, the list of distinct domains (its
length is their count; distinctness is the Nodup conjunct; empty and
missing domains are dropped) and the mean words per document rounded to
the nearest integer. -/
theorem listStatistics_amended (cache : Cache) (userInfo : Option UserInfo)
    (qd : Except Unit (List Document))
    (qdel : Except Unit (List DeletionRecord)) :
    ((listEndpoint cache userInfo qd qdel).2.1 =
      (getAllDocuments cache userInfo qd qdel).2) ∧
    (∃ ds : List Document, (listEndpoint cache userInfo qd qdel).2.1 =
      ds.map formatDocument) ∧
    ((listEndpoint cache userInfo qd qdel).2.2.totalDocuments =
      (mapValues (listEndpoint cache userInfo qd qdel).1).length) ∧
    ((listEndpoint cache userInfo qd qdel).2.2.totalWords =
      ((mapValues (listEndpoint cache userInfo qd qdel).1).map
        (·.wordCount)).sum) ∧
    ((listEndpoint cache userInfo qd qdel).2.2.totalCharacters =
      ((mapValues (listEndpoint cache userInfo qd qdel).1).map
        (·.contentLength)).sum) ∧
    ((listEndpoint cache userInfo qd qdel).2.2.domains =
      firstDedup [] (((mapValues (listEndpoint cache userInfo qd
        qdel).1).filterMap (fun d => d.metadata.map (·.domain))).filter
        (fun s => s != []))) ∧
    ((listEndpoint cache userInfo qd qdel).2.2.domains.Nodup) ∧
    ((listEndpoint cache userInfo qd qdel).2.2.averageWordsPerDocument =
      if 0 < (mapValues (listEndpoint cache userInfo qd qdel).1).length
      then jsRound (((mapValues (listEndpoint cache userInfo qd
        qdel).1).map (·.wordCount)).sum)
        ((mapValues (listEndpoint cache userInfo qd qdel).1).length)
      else 0) := by
  have hfst : (listEndpoint cache userInfo qd qdel).1 =
      (getAllDocuments cache userInfo qd qdel).1 := rfl
  have hstats : (listEndpoint cache userInfo qd qdel).2.2 =
      getStatistics (getAllDocuments cache userInfo qd qdel).1 := rfl
  have hsnd : (listEndpoint cache userInfo qd qdel).2.1 =
      (getAllDocuments cache userInfo qd qdel).2 := rfl
  rw [hfst, hstats, hsnd]
  refine ⟨rfl, ?_, rfl, ?_, ?_, rfl, ?_, ?_⟩
  · cases userInfo with
    | none => exact ⟨mapValues cache, rfl⟩
    | some u =>
      simp only [getAllDocuments]
      split
      · exact ⟨_, rfl⟩
      · split
        · exact ⟨_, rfl⟩
        · exact ⟨_, rfl⟩
  · simp only [getStatistics]
    rw [foldl_add_count]
    simp
  · simp only [getStatistics]
    rw [foldl_add_count]
    simp
  · exact firstDedup_nodup _ _
  · simp only [getStatistics]
    rw [foldl_add_count]
    simp

/-! ### C4 -/

/-- The scoring rule exactly as the specification words it: fixed
additive weights title=10, summary=5, URL=3, metadata tags=4, full
content=2, each awarded for a case-insensitive substring match of the
query. -/
def specScore (d : Document) (query : Str) : Nat :=
  (if strIncludes (lower d.title) (lower query) then 10 else 0) +
  (if strIncludes (lower d.summary) (lower query) then 5 else 0) +
  (if strIncludes (lower d.url) (lower query) then 3 else 0) +
  (if (match d.metadata with
       | some m =>
         match m.tags with
         | some ts => ts.any (fun t => strIncludes (lower t) (lower query))
         | none => false
       | none => false) then 4 else 0) +
  (if strIncludes (lower d.content) (lower query) then 2 else 0)

theorem calculateRelevanceScore_eq_specScore (d : Document) (q : Str) :
    calculateRelevanceScore d (lower q) = specScore d q := by
  unfold calculateRelevanceScore specScore
  omega

/-- Spec-side: the positively scored documents, paired with their
scores, in cache (encounter) order. -/
def specMatches (cache : Cache) (query : Str) : List ScoredDoc :=
  (mapValues cache).filterMap (fun d =>
    if 0 < specScore d query then some ⟨d, specScore d query⟩ else none)

theorem scoreLE_trans : ∀ (a b c : ScoredDoc),
    scoreLE a b → scoreLE b c → scoreLE a c := by
  intro a b c hab hbc
  simp only [scoreLE, decide_eq_true_eq] at hab hbc ⊢
  omega

theorem scoreLE_total : ∀ (a b : ScoredDoc),
    scoreLE a b || scoreLE b a := by
  intro a b
  simp only [scoreLE, Bool.or_eq_true, decide_eq_true_eq]
  omega

/-- C4: the search postcondition.  With `specMatches` the positively
scored documents in cache order under the specification's scoring rule,
`searchDocuments` returns the first 10 of their stable descending sort:
(i) the refinement equation itself; (ii) every returned entry carries a
strictly positive score equal to the specification's field-weight sum
for its document; (iii) the output is ordered by descending score;
(iv) ties keep encounter order — for each score value, the sorted list
restricted to that score is exactly the cache-order list restricted to
that score; (v) at most 10 results; (vi) the returned results are the
10 highest-scored — nothing beyond the cut scores above anything
returned. -/
theorem searchDocuments_spec (cache : Cache) (q : Str) :
    (searchDocuments cache q =
      ((specMatches cache q).mergeSort scoreLE).take 10) ∧
    (∀ x ∈ searchDocuments cache q,
      x.relevanceScore = specScore x.doc q ∧ 0 < x.relevanceScore) ∧
    ((searchDocuments cache q).Pairwise
      (fun a b => b.relevanceScore ≤ a.relevanceScore)) ∧
    (∀ s : Nat, ((specMatches cache q).mergeSort scoreLE).filter
        (fun x => x.relevanceScore == s) =
      (specMatches cache q).filter (fun x => x.relevanceScore == s)) ∧
    ((searchDocuments cache q).length ≤ 10) ∧
    (∀ y ∈ ((specMatches cache q).mergeSort scoreLE).drop 10,
      ∀ x ∈ searchDocuments cache q,
      y.relevanceScore ≤ x.relevanceScore) := by
  have hfm : (mapValues cache).filterMap (fun d =>
      if 0 < calculateRelevanceScore d (lower q) then
        some (ScoredDoc.mk d (calculateRelevanceScore d (lower q)))
      else none) = specMatches cache q := by
    unfold specMatches
    exact List.filterMap_congr (fun d _ => by
      rw [calculateRelevanceScore_eq_specScore])
  have heq : searchDocuments cache q =
      ((specMatches cache q).mergeSort scoreLE).take 10 := by
    calc searchDocuments cache q
        = (((mapValues cache).filterMap (fun d =>
            if 0 < calculateRelevanceScore d (lower q) then
              some (ScoredDoc.mk d (calculateRelevanceScore d (lower q)))
            else none)).mergeSort scoreLE).take 10 := rfl
      _ = ((specMatches cache q).mergeSort scoreLE).take 10 := by rw [hfm]
  have hmem : ∀ x ∈ specMatches cache q,
      x.relevanceScore = specScore x.doc q ∧ 0 < x.relevanceScore := by
    intro x hx
    rcases List.mem_filterMap.mp hx with ⟨d, _, hd⟩
    split at hd
    · next hpos =>
      cases hd
      exact ⟨rfl, hpos⟩
    · cases hd
  have hsorted : ((specMatches cache q).mergeSort scoreLE).Pairwise
      (fun a b => scoreLE a b = true) :=
    List.sorted_mergeSort scoreLE_trans
      (fun a b => scoreLE_total a b) (specMatches cache q)
  refine ⟨heq, ?_, ?_, ?_, ?_, ?_⟩
  · intro x hx
    rw [heq] at hx
    exact hmem x (List.mem_mergeSort.mp (List.mem_of_mem_take hx))
  · rw [heq]
    exact ((hsorted.sublist (List.take_sublist 10 _)).imp
      (fun h => by simpa [scoreLE] using h))
  · intro s
    have hall : ∀ x ∈ (specMatches cache q).filter
        (fun x => x.relevanceScore == s),
        ∀ y ∈ (specMatches cache q).filter
        (fun x => x.relevanceScore == s), scoreLE x y = true := by
      intro x hx y hy
      have hxs : x.relevanceScore = s := by
        simpa using List.of_mem_filter hx
      have hys : y.relevanceScore = s := by
        simpa using List.of_mem_filter hy
      simp [scoreLE, hxs, hys]
    have hpair : ((specMatches cache q).filter
        (fun x => x.relevanceScore == s)).Pairwise
        (fun a b => scoreLE a b = true) :=
      List.pairwise_of_forall_mem_list hall
    have hsub : List.Sublist
        ((specMatches cache q).filter (fun x => x.relevanceScore == s))
        ((specMatches cache q).mergeSort scoreLE) :=
      List.sublist_mergeSort scoreLE_trans (fun a b => scoreLE_total a b)
        hpair (List.filter_sublist _)
    have hsub2 : List.Sublist
        ((specMatches cache q).filter (fun x => x.relevanceScore == s))
        (((specMatches cache q).mergeSort scoreLE).filter
          (fun x => x.relevanceScore == s)) := by
      have hff := hsub.filter (fun x => x.relevanceScore == s)
      have hself : ((specMatches cache q).filter
          (fun x => x.relevanceScore == s)).filter
          (fun x => x.relevanceScore == s) =
          (specMatches cache q).filter (fun x => x.relevanceScore == s) :=
        List.filter_eq_self.mpr (fun a ha => (List.mem_filter.mp ha).2)
      rwa [hself] at hff
    have hperm : List.Perm
        (((specMatches cache q).mergeSort scoreLE).filter
          (fun x => x.relevanceScore == s))
        ((specMatches cache q).filter (fun x => x.relevanceScore == s)) :=
      (List.mergeSort_perm (specMatches cache q) scoreLE).filter _
    exact (hsub2.eq_of_length hperm.length_eq.symm).symm
  · rw [heq]
    exact List.length_take_le 10 _
  · intro y hy x hx
    rw [heq] at hx
    have hcross := (List.pairwise_append.mp
      (by rwa [List.take_append_drop 10
        ((specMatches cache q).mergeSort scoreLE)])).2.2
    have := hcross x hx y hy
    simpa [scoreLE] using this

end DocStore
